import Mathlib

/-!
Verification of the retrieval-augmented answer pipeline in `rag_run.py`.

The repository is a single Python file: it loads a JSON corpus of food
records, reconciles it against a persistent chromadb collection (ingestion),
and answers questions by embedding them, querying the collection for the
three nearest documents, and prompting a generation endpoint.

The pure data flow of the source is embedded below.  The chromadb
collection itself is external to the repository; its `get` / `add` /
`query` operations are modelled from the specification of the Document
Index (spec sections 4.2 and 4.3) and are marked as such.
-/

/-- A corpus entry from `foods.json`: `id`, `text`, optional `region`,
optional `type` (source: the JSON items consumed at `rag_run.py` lines
53-72). -/
structure Record where
  id : String
  text : String
  region : Option String
  type : Option String
deriving DecidableEq, Repr

/-- A list of floats is modelled as a list of integers; the embedding
dimension is opaque to the system and no arithmetic on components is
performed by the source. -/
abbrev Embedding := List Int

/-- An `(id, text, embedding)` triple persisted in the Document Index,
as produced by `collection.add(documents=[...], embeddings=[...],
ids=[...])`. -/
structure IndexEntry where
  id : String
  text : String
  embedding : Embedding
deriving DecidableEq, Repr

/-- The Document Index contents, ordered by insertion. -/
abbrev Index := List IndexEntry

/-- The id set of the index: `collection.get()['ids']`. -/
def Index.ids (idx : Index) : List String :=
  idx.map IndexEntry.id

/-- The enriched embedding input built at `rag_run.py` lines 60-64:
start from `item["text"]`, append a region clause when `"region"` is a
key of the item, then a type clause when `"type"` is. -/
def enriched_text (item : Record) : String :=
  let t1 := item.text
  let t2 :=
    match item.region with
    | some reg => t1 ++ " This food is popular in " ++ reg ++ "."
    | none => t1
  match item.type with
  | some ty => t2 ++ " It is a type of " ++ ty ++ "."
  | none => t2

/-- The new-records filter at `rag_run.py` lines 53-54:
`[item for item in food_data if item['id'] not in existing_ids]` where
`existing_ids = set(collection.get()['ids'])`. -/
def new_items (corpus : List Record) (idx : Index) : List Record :=
  corpus.filter (fun item => decide (item.id ∉ Index.ids idx))

/-- The arguments of one `collection.add` call in the ingestion loop
(`rag_run.py` lines 66-72): the original text is stored as the document,
the embedding is computed from the enriched text. -/
def entryOf (embed : String → Embedding) (item : Record) : IndexEntry :=
  { id := item.id, text := item.text, embedding := embed (enriched_text item) }

/-- The sequence of `collection.add` calls a full run of the ingestion
loop issues, in corpus order (`rag_run.py` lines 56-72). -/
def ingestCalls (embed : String → Embedding) (corpus : List Record) (idx : Index) :
    List IndexEntry :=
  (new_items corpus idx).map (entryOf embed)

/-- Modelled from the spec: `insert(id, text, embedding)` of the Document
Index (section 4.2), realized by the external `collection.add` which is not
part of this repository.  Idempotency is the caller's responsibility;
inserting a duplicate id is an error surface from the underlying store. -/
def Index.insert (idx : Index) (e : IndexEntry) : Except String Index :=
  if e.id ∈ Index.ids idx then
    Except.error ("duplicate id: " ++ e.id)
  else
    Except.ok (idx ++ [e])

/-- A complete ingestion run (`rag_run.py` lines 53-74): compute the new
records against the current id set, then insert each one in order; an
insert error aborts the remaining loop. -/
def runIngestion (embed : String → Embedding) (corpus : List Record) (idx : Index) :
    Except String Index :=
  (ingestCalls embed corpus idx).foldlM Index.insert idx

/-- An ingestion run interrupted after the first `j` inserts: the loop is
sequential, so the inserted records are a prefix of the new-record list,
and nothing is rolled back. -/
def ingestInterrupted (embed : String → Embedding) (corpus : List Record)
    (idx : Index) (j : Nat) : Except String Index :=
  ((ingestCalls embed corpus idx).take j).foldlM Index.insert idx

/-- Ranking relation for a nearest-neighbor query: smaller distance to the
query embedding comes first. -/
def distLE (dist : Embedding → Embedding → Int) (q : Embedding)
    (a b : IndexEntry) : Prop :=
  dist q a.embedding ≤ dist q b.embedding

instance (dist : Embedding → Embedding → Int) (q : Embedding) :
    DecidableRel (distLE dist q) :=
  fun a b => inferInstanceAs (Decidable (dist q a.embedding ≤ dist q b.embedding))

/-- Modelled from the spec: `query(embedding, k)` of the Document Index
(section 4.2), realized by the external `collection.query` which is not
part of this repository.  It returns the k nearest stored entries ranked
ascending by vector distance, and all entries when fewer than k are
stored.  The distance function of the store is a parameter. -/
def Index.query (dist : Embedding → Embedding → Int) (q : Embedding)
    (k : Nat) (idx : Index) : List IndexEntry :=
  (List.insertionSort (distLE dist q) idx).take k

/-- Outcome of one call to an external HTTP service as seen through the
`requests` library in the source: a successful decoded value, a
`ConnectionError`, a `Timeout`, or any other failure. -/
inductive SvcResult (α : Type) where
  | ok (val : α)
  | connError
  | timeout
  | otherError (msg : String)
deriving DecidableEq

/-- What `get_embedding` can do for its caller: return an embedding, or
terminate the whole process via `sys.exit`. -/
inductive EmbedResult where
  | ok (emb : Embedding)
  | exited (code : Nat)
deriving DecidableEq, Repr

/-- `get_embedding` (`rag_run.py` lines 33-50): on a successful response
the `embedding` field is returned unmodified; on `ConnectionError`,
`Timeout`, or any other exception it prints a message and calls
`sys.exit(1)`. -/
def get_embedding (svc : String → SvcResult Embedding) (text : String) :
    EmbedResult :=
  match svc text with
  | SvcResult.ok e => EmbedResult.ok e
  | SvcResult.connError => EmbedResult.exited 1
  | SvcResult.timeout => EmbedResult.exited 1
  | SvcResult.otherError _ => EmbedResult.exited 1

/-- The error kinds `_process_question` surfaces to the user through a
`messagebox` dialog (`rag_run.py` lines 192-204). -/
inductive ErrKind where
  | connection
  | timeout
  | other (msg : String)
deriving DecidableEq

/-- Terminal outcome of one `_process_question` invocation: the output
text appended to the pane, an error dialog, or process termination
caused by `sys.exit` inside `get_embedding`. -/
inductive PipelineOutcome where
  | success (output : String)
  | errorDialog (kind : ErrKind)
  | exited (code : Nat)
deriving DecidableEq

/-- The `'='*80` and `'-'*80` horizontal rules of the output block. -/
def hrule (c : Char) : String :=
  String.mk (List.replicate 80 c)

/-- The retrieved-documents listing built at `rag_run.py` lines 152-154:
one block per document, numbered from 1, showing the id and the text. -/
def sourcesBlock (results : List IndexEntry) : String :=
  String.join (results.enum.map (fun p =>
    "\n🔹 Source " ++ toString (p.1 + 1) ++ " (ID: " ++ p.2.id ++ "):\n    "
      ++ p.2.text ++ "\n"))

/-- The full text appended to the output pane on success
(`rag_run.py` lines 146-183). -/
def buildOutput (question : String) (results : List IndexEntry)
    (answer : String) : String :=
  hrule '=' ++ "\n" ++ "Question: " ++ question ++ "\n" ++ hrule '=' ++ "\n\n"
    ++ "🧠 Retrieved Documents:\n" ++ hrule '-' ++ "\n"
    ++ sourcesBlock results ++ "\n" ++ hrule '-' ++ "\n"
    ++ "\n🤖 Answer:\n" ++ hrule '-' ++ "\n" ++ answer ++ "\n" ++ hrule '-'
    ++ "\n\n"

/-- `_process_question` (`rag_run.py` lines 131-204): embed the question
(which may terminate the process), query the index for the 3 nearest
documents, join their texts with a newline into the context, build the
fixed prompt template, and call the generation service; a generation
failure is surfaced as an error dialog.  The second component records
the prompts sent to the generation service. -/
def process_question (embedSvc : String → SvcResult Embedding)
    (genSvc : String → SvcResult String)
    (dist : Embedding → Embedding → Int) (idx : Index) (question : String) :
    PipelineOutcome × List String :=
  match get_embedding embedSvc question with
  | EmbedResult.exited c => (PipelineOutcome.exited c, [])
  | EmbedResult.ok qEmb =>
    let results := Index.query dist qEmb 3 idx
    let topDocs := results.map IndexEntry.text
    let context := String.intercalate "\n" topDocs
    let prompt := "Use the following context to answer the question.\n\nContext:\n"
      ++ context ++ "\n\nQuestion: " ++ question ++ "\nAnswer:"
    match genSvc prompt with
    | SvcResult.ok resp =>
        (PipelineOutcome.success (buildOutput question results resp.trim), [prompt])
    | SvcResult.connError => (PipelineOutcome.errorDialog ErrKind.connection, [prompt])
    | SvcResult.timeout => (PipelineOutcome.errorDialog ErrKind.timeout, [prompt])
    | SvcResult.otherError m => (PipelineOutcome.errorDialog (ErrKind.other m), [prompt])

/-- Outcome of the `ask_question` handler: either the warning dialog for
an empty question, or a started pipeline run with its result. -/
inductive AskOutcome where
  | warned
  | started (result : PipelineOutcome × List String)

/-- Python's `str.strip()`: remove leading and trailing whitespace. -/
def stripString (s : String) : String :=
  String.mk (((s.data.dropWhile Char.isWhitespace).reverse.dropWhile
    Char.isWhitespace).reverse)

/-- `ask_question` (`rag_run.py` lines 116-129): strip the raw entry
text; an empty result shows a warning and returns without invoking the
pipeline, otherwise the pipeline runs on the stripped question. -/
def ask_question (embedSvc : String → SvcResult Embedding)
    (genSvc : String → SvcResult String)
    (dist : Embedding → Embedding → Int) (idx : Index)
    (rawQuestion : String) : AskOutcome :=
  let question := stripString rawQuestion
  if question = "" then
    AskOutcome.warned
  else
    AskOutcome.started (process_question embedSvc genSvc dist idx question)

/-- The region clause of the enriched text, empty when `region` is
absent; used to state the spec's characterization of `enriched_text`. -/
def regionClause (item : Record) : String :=
  match item.region with
  | some reg => " This food is popular in " ++ reg ++ "."
  | none => ""

/-- The type clause of the enriched text, empty when `type` is absent;
used to state the spec's characterization of `enriched_text`. -/
def typeClause (item : Record) : String :=
  match item.type with
  | some ty => " It is a type of " ++ ty ++ "."
  | none => ""

/-- Folding the spec's `insert` over entries whose ids are mutually distinct
and absent from the index succeeds and appends them in order. -/
lemma foldlM_insert_eq_ok (es : List IndexEntry) (idx : Index)
    (hfresh : ∀ e ∈ es, e.id ∉ Index.ids idx)
    (hnd : (es.map IndexEntry.id).Nodup) :
    es.foldlM Index.insert idx = Except.ok (idx ++ es) := by
  induction es generalizing idx with
  | nil => rw [List.foldlM_nil, List.append_nil]; rfl
  | cons e rest ih =>
    have he : e.id ∉ Index.ids idx := hfresh e (List.mem_cons_self _ _)
    rw [List.foldlM_cons, Index.insert, if_neg he]
    have hids : Index.ids (idx ++ [e]) = Index.ids idx ++ [e.id] := by
      simp [Index.ids]
    have hrest : rest.foldlM Index.insert (idx ++ [e]) = Except.ok ((idx ++ [e]) ++ rest) := by
      apply ih
      · intro e' he'
        rw [hids]
        simp only [List.mem_append, List.mem_singleton]
        push_neg
        refine ⟨hfresh e' (List.mem_cons_of_mem _ he'), ?_⟩
        intro hcontra
        have : e.id ∈ rest.map IndexEntry.id := by
          rw [← hcontra]; exact List.mem_map_of_mem _ he'
        exact (List.nodup_cons.1 (by simpa using hnd)).1 this
      · exact (List.nodup_cons.1 (by simpa using hnd)).2
    simpa [List.append_assoc] using hrest

/-- The new-record filter preserves uniqueness of corpus ids. -/
lemma new_items_ids_nodup (corpus : List Record) (idx : Index)
    (h : (corpus.map Record.id).Nodup) :
    ((new_items corpus idx).map Record.id).Nodup :=
  h.sublist (List.Sublist.map Record.id (List.filter_sublist corpus))

/-- Membership in the new-record list: in the corpus and absent from the index. -/
lemma mem_new_items (corpus : List Record) (idx : Index) (r : Record) :
    r ∈ new_items corpus idx ↔ r ∈ corpus ∧ r.id ∉ Index.ids idx := by
  simp [new_items]

/-- The ids of the issued insert calls are the ids of the new records. -/
lemma ingestCalls_map_id (embed : String → Embedding) (corpus : List Record)
    (idx : Index) :
    (ingestCalls embed corpus idx).map IndexEntry.id
      = (new_items corpus idx).map Record.id := by
  simp [ingestCalls, List.map_map]
  intro a _
  rfl

/-- With unique corpus ids a full ingestion run succeeds and appends exactly
the insert calls to the index. -/
lemma runIngestion_ok (embed : String → Embedding) (corpus : List Record)
    (idx : Index) (h : (corpus.map Record.id).Nodup) :
    runIngestion embed corpus idx
      = Except.ok (idx ++ ingestCalls embed corpus idx) := by
  apply foldlM_insert_eq_ok
  · intro e he
    obtain ⟨r, hr, rfl⟩ := List.mem_map.1 he
    exact ((mem_new_items corpus idx r).1 hr).2
  · rw [ingestCalls_map_id]
    exact new_items_ids_nodup corpus idx h

/-- Id set of an extended index. -/
lemma ids_append (idx : Index) (es : List IndexEntry) :
    Index.ids (idx ++ es) = Index.ids idx ++ es.map IndexEntry.id := by
  simp [Index.ids]

/-- After a completed run, re-filtering the same corpus finds nothing new. -/
lemma new_items_after_run (embed : String → Embedding) (corpus : List Record)
    (idx : Index) :
    new_items corpus (idx ++ ingestCalls embed corpus idx) = [] := by
  rw [new_items, List.filter_eq_nil_iff]
  intro r hr
  simp only [decide_eq_true_eq, not_not]
  rw [ids_append, ingestCalls_map_id, List.mem_append]
  by_cases hmem : r.id ∈ Index.ids idx
  · exact Or.inl hmem
  · exact Or.inr (List.mem_map_of_mem _ ((mem_new_items corpus idx r).2 ⟨hr, hmem⟩))

/-- No new records means no insert calls. -/
lemma ingestCalls_of_no_new (embed : String → Embedding) (corpus : List Record)
    (idx : Index) (h : new_items corpus idx = []) :
    ingestCalls embed corpus idx = [] := by
  rw [ingestCalls, h]
  rfl

/-- No new records means ingestion returns the index unchanged, without error. -/
lemma runIngestion_of_no_new (embed : String → Embedding) (corpus : List Record)
    (idx : Index) (h : new_items corpus idx = []) :
    runIngestion embed corpus idx = Except.ok idx := by
  rw [runIngestion, ingestCalls_of_no_new embed corpus idx h]
  rfl

/-- C1: ingestion is idempotent.  For every corpus satisfying the data-model
invariant that ids are unique across the corpus, and every index state, a
first ingestion run succeeds with some resulting index, against which the
second run computes an empty set of new records, issues no insert call, and
returns the index unchanged without error. -/
theorem ingestion_idempotent (embed : String → Embedding) (corpus : List Record)
    (idx : Index) (h : (corpus.map Record.id).Nodup) :
    ∃ idx₁, runIngestion embed corpus idx = Except.ok idx₁ ∧
      new_items corpus idx₁ = [] ∧
      ingestCalls embed corpus idx₁ = [] ∧
      runIngestion embed corpus idx₁ = Except.ok idx₁ := by
  refine ⟨idx ++ ingestCalls embed corpus idx, runIngestion_ok embed corpus idx h,
    new_items_after_run embed corpus idx,
    ingestCalls_of_no_new embed _ _ (new_items_after_run embed corpus idx),
    runIngestion_of_no_new embed _ _ (new_items_after_run embed corpus idx)⟩

/-- Witness for C1 on a one-record corpus and an empty index. -/
theorem ingestion_idempotent_witness :
    (([Record.mk "a1" "Sushi is a Japanese dish." none none].map Record.id).Nodup)
    ∧ ∃ idx₁,
      runIngestion (fun _ => [0]) [Record.mk "a1" "Sushi is a Japanese dish." none none] []
        = Except.ok idx₁ ∧
      new_items [Record.mk "a1" "Sushi is a Japanese dish." none none] idx₁ = [] ∧
      ingestCalls (fun _ => [0]) [Record.mk "a1" "Sushi is a Japanese dish." none none] idx₁ = [] ∧
      runIngestion (fun _ => [0]) [Record.mk "a1" "Sushi is a Japanese dish." none none] idx₁
        = Except.ok idx₁ :=
  ⟨by decide, ingestion_idempotent (fun _ => [0]) _ [] (by decide)⟩

/-- Filtering an appended list by absence of the image from the left part
keeps exactly the right part, when images are globally distinct. -/
lemma filter_not_mem_map_left {α β : Type} [DecidableEq β] (f : α → β)
    (T D : List α) (hnd : ((T ++ D).map f).Nodup) :
    (T ++ D).filter (fun a => decide (f a ∉ T.map f)) = D := by
  rw [List.map_append] at hnd
  have hdisj := (List.nodup_append.1 hnd).2.2
  rw [List.filter_append]
  have h1 : T.filter (fun a => decide (f a ∉ T.map f)) = [] := by
    rw [List.filter_eq_nil_iff]
    intro a ha
    simp only [decide_eq_true_eq, not_not]
    exact List.mem_map_of_mem f ha
  have h2 : D.filter (fun a => decide (f a ∉ T.map f)) = D := by
    rw [List.filter_eq_self]
    intro a ha
    simp only [decide_eq_true_eq]
    intro hcontra
    exact hdisj hcontra (List.mem_map_of_mem f ha)
  rw [h1, h2, List.nil_append]

/-- Recomputing the new-record set after an interrupted run that inserted the
first `j` records leaves exactly the remaining suffix. -/
lemma new_items_after_interrupt (embed : String → Embedding) (corpus : List Record)
    (idx : Index) (j : Nat) (h : (corpus.map Record.id).Nodup) :
    new_items corpus (idx ++ (ingestCalls embed corpus idx).take j)
      = (new_items corpus idx).drop j := by
  have hnd := new_items_ids_nodup corpus idx h
  have hids : Index.ids (idx ++ (ingestCalls embed corpus idx).take j)
      = Index.ids idx ++ ((new_items corpus idx).take j).map Record.id := by
    rw [ids_append]
    congr 1
    simp only [List.map_take, ingestCalls_map_id]
  have key : (new_items corpus idx).filter
      (fun a => decide (a.id ∉ ((new_items corpus idx).take j).map Record.id))
      = (new_items corpus idx).drop j := by
    have hx := filter_not_mem_map_left Record.id ((new_items corpus idx).take j)
      ((new_items corpus idx).drop j)
      (by rw [List.take_append_drop]; exact hnd)
    rwa [List.take_append_drop] at hx
  calc new_items corpus (idx ++ (ingestCalls embed corpus idx).take j)
      = corpus.filter (fun r => decide
          (r.id ∉ Index.ids (idx ++ (ingestCalls embed corpus idx).take j))) := rfl
    _ = corpus.filter (fun r =>
          decide (r.id ∉ ((new_items corpus idx).take j).map Record.id)
            && decide (r.id ∉ Index.ids idx)) := by
        apply List.filter_congr
        intro r hr
        rw [hids]
        simp [not_or, Bool.and_comm]
    _ = (corpus.filter (fun r => decide (r.id ∉ Index.ids idx))).filter
          (fun r => decide (r.id ∉ ((new_items corpus idx).take j).map Record.id)) :=
        (List.filter_filter _ _).symm
    _ = (new_items corpus idx).filter
          (fun a => decide (a.id ∉ ((new_items corpus idx).take j).map Record.id)) := rfl
    _ = (new_items corpus idx).drop j := key

/-- An interrupted run keeps its prefix of successful inserts. -/
lemma ingestInterrupted_ok (embed : String → Embedding) (corpus : List Record)
    (idx : Index) (j : Nat) (h : (corpus.map Record.id).Nodup) :
    ingestInterrupted embed corpus idx j
      = Except.ok (idx ++ (ingestCalls embed corpus idx).take j) := by
  apply foldlM_insert_eq_ok
  · intro e he
    obtain ⟨r, hr, rfl⟩ := List.mem_map.1
      (List.mem_of_mem_take (by simpa [ingestCalls] using he))
    exact ((mem_new_items corpus idx r).1 hr).2
  · have : ((ingestCalls embed corpus idx).take j).map IndexEntry.id
        = ((ingestCalls embed corpus idx).map IndexEntry.id).take j := by
      simp [List.map_take]
    rw [this, ingestCalls_map_id]
    exact (new_items_ids_nodup corpus idx h).sublist (List.take_sublist _ _)

/-- C2: ingestion converges under interruption.  For a corpus with unique
ids, interrupting a run after the first `j` of the new records leaves the
already-inserted prefix in place (no rollback); the subsequent run recomputes
the new-record set from the current index state, obtaining exactly the
remaining records — none of which is already present — and completes to the
same index a single uninterrupted run would have produced. -/
theorem ingestion_convergence (embed : String → Embedding) (corpus : List Record)
    (idx : Index) (j : Nat) (h : (corpus.map Record.id).Nodup)
    (hj : j < (new_items corpus idx).length) :
    ∃ idx₁,
      ingestInterrupted embed corpus idx j = Except.ok idx₁ ∧
      idx₁ = idx ++ (ingestCalls embed corpus idx).take j ∧
      new_items corpus idx₁ = (new_items corpus idx).drop j ∧
      (∀ r ∈ new_items corpus idx₁, r.id ∉ Index.ids idx₁) ∧
      runIngestion embed corpus idx₁ = Except.ok (idx ++ ingestCalls embed corpus idx) := by
  refine ⟨idx ++ (ingestCalls embed corpus idx).take j,
    ingestInterrupted_ok embed corpus idx j h, rfl,
    new_items_after_interrupt embed corpus idx j h, ?_, ?_⟩
  · intro r hr
    exact ((mem_new_items corpus _ r).1 hr).2
  · rw [runIngestion_ok embed corpus _ h]
    congr 1
    have hcalls : ingestCalls embed corpus (idx ++ (ingestCalls embed corpus idx).take j)
        = (ingestCalls embed corpus idx).drop j := by
      rw [ingestCalls, new_items_after_interrupt embed corpus idx j h, ingestCalls,
        List.map_drop]
    rw [hcalls, List.append_assoc, List.take_append_drop]

/-- Witness for C2: two records, interrupted after the first insert. -/
theorem ingestion_convergence_witness :
    (([Record.mk "a" "t1" none none, Record.mk "b" "t2" none none].map Record.id).Nodup)
    ∧ 1 < (new_items [Record.mk "a" "t1" none none, Record.mk "b" "t2" none none] []).length
    ∧ ∃ idx₁,
      ingestInterrupted (fun _ => [0])
          [Record.mk "a" "t1" none none, Record.mk "b" "t2" none none] [] 1
        = Except.ok idx₁ ∧
      idx₁ = [] ++ (ingestCalls (fun _ => [0])
          [Record.mk "a" "t1" none none, Record.mk "b" "t2" none none] []).take 1 ∧
      new_items [Record.mk "a" "t1" none none, Record.mk "b" "t2" none none] idx₁
        = (new_items [Record.mk "a" "t1" none none, Record.mk "b" "t2" none none] []).drop 1 ∧
      (∀ r ∈ new_items [Record.mk "a" "t1" none none, Record.mk "b" "t2" none none] idx₁,
        r.id ∉ Index.ids idx₁) ∧
      runIngestion (fun _ => [0])
          [Record.mk "a" "t1" none none, Record.mk "b" "t2" none none] idx₁
        = Except.ok ([] ++ ingestCalls (fun _ => [0])
            [Record.mk "a" "t1" none none, Record.mk "b" "t2" none none] []) :=
  ⟨by decide, by decide,
    ingestion_convergence (fun _ => [0]) _ [] 1 (by decide) (by decide)⟩

/-- The enriched text decomposes as the original text followed by the region
clause and the type clause. -/
lemma enriched_text_eq (item : Record) :
    enriched_text item = item.text ++ regionClause item ++ typeClause item := by
  cases hr : item.region <;> cases ht : item.type <;>
    simp only [enriched_text, regionClause, typeClause, hr, ht, String.append_assoc,
      String.append_empty]

/-- Length of the enriched text. -/
lemma enriched_text_length (item : Record) :
    (enriched_text item).length
      = item.text.length + (regionClause item).length + (typeClause item).length := by
  rw [enriched_text_eq, String.length_append, String.length_append]

/-- Length of a present region clause. -/
lemma regionClause_length (item : Record) (reg : String) (h : item.region = some reg) :
    (regionClause item).length = 26 + reg.length := by
  rw [regionClause, h]
  rw [String.length_append, String.length_append]
  have h1 : (" This food is popular in " : String).length = 25 := rfl
  have h2 : ("." : String).length = 1 := rfl
  omega

/-- Length of a present type clause. -/
lemma typeClause_length (item : Record) (ty : String) (h : item.type = some ty) :
    (typeClause item).length = 18 + ty.length := by
  rw [typeClause, h]
  rw [String.length_append, String.length_append]
  have h1 : (" It is a type of " : String).length = 17 := rfl
  have h2 : ("." : String).length = 1 := rfl
  omega

/-- When either optional attribute is present the enriched text is strictly
longer than, hence different from, the original text. -/
lemma enriched_text_ne_of_attr (item : Record)
    (h : item.region.isSome ∨ item.type.isSome) :
    enriched_text item ≠ item.text := by
  intro hcontra
  have hlen := congrArg String.length hcontra
  rw [enriched_text_length] at hlen
  rcases h with hr | ht
  · obtain ⟨reg, hreg⟩ := Option.isSome_iff_exists.1 hr
    have := regionClause_length item reg hreg
    omega
  · obtain ⟨ty, hty⟩ := Option.isSome_iff_exists.1 ht
    have := typeClause_length item ty hty
    omega

/-- C3: enrichment never leaks into the stored payload.  Every record passing
the new-record filter produces an insert call whose stored document is the
record's original `text` while its embedding is computed from the enriched
text; when an optional attribute is present the enriched form differs from
the original text, so the stored text is never the enriched form. -/
theorem enrichment_non_leak (embed : String → Embedding) (corpus : List Record)
    (idx : Index) (item : Record) (h : item ∈ new_items corpus idx) :
    (∃ e ∈ ingestCalls embed corpus idx,
        e.id = item.id ∧ e.text = item.text
          ∧ e.embedding = embed (enriched_text item)) ∧
    (item.region.isSome ∨ item.type.isSome → enriched_text item ≠ item.text) := by
  constructor
  · exact ⟨entryOf embed item, List.mem_map_of_mem _ h, rfl, rfl, rfl⟩
  · exact enriched_text_ne_of_attr item

/-- Witness for C3 on a record carrying a region attribute. -/
theorem enrichment_non_leak_witness :
    (Record.mk "a" "t" (some "Japan") none
        ∈ new_items [Record.mk "a" "t" (some "Japan") none] [])
    ∧ ((∃ e ∈ ingestCalls (fun _ => [0]) [Record.mk "a" "t" (some "Japan") none] [],
        e.id = "a" ∧ e.text = "t"
          ∧ e.embedding = (fun (_ : String) => ([0] : Embedding))
              (enriched_text (Record.mk "a" "t" (some "Japan") none))) ∧
      ((Record.mk "a" "t" (some "Japan") none).region.isSome
          ∨ (Record.mk "a" "t" (some "Japan") none).type.isSome
        → enriched_text (Record.mk "a" "t" (some "Japan") none)
            ≠ (Record.mk "a" "t" (some "Japan") none).text)) :=
  ⟨by decide, enrichment_non_leak (fun _ => [0])
    [Record.mk "a" "t" (some "Japan") none] []
    (Record.mk "a" "t" (some "Japan") none) (by decide)⟩

/-- C4: enriched-text construction.  The embedding input is the record's
`text` with the region clause appended when `region` is present, then the
type clause when `type` is present, each clause empty when its attribute is
absent; with neither attribute the enriched text is the original text
unchanged. -/
theorem enriched_text_spec (item : Record) :
    enriched_text item = item.text ++ regionClause item ++ typeClause item ∧
    (∀ reg, item.region = some reg
      → regionClause item = " This food is popular in " ++ reg ++ ".") ∧
    (item.region = none → regionClause item = "") ∧
    (∀ ty, item.type = some ty
      → typeClause item = " It is a type of " ++ ty ++ ".") ∧
    (item.type = none → typeClause item = "") ∧
    (item.region = none → item.type = none → enriched_text item = item.text) := by
  refine ⟨enriched_text_eq item, ?_, ?_, ?_, ?_, ?_⟩
  · intro reg hreg; rw [regionClause, hreg]
  · intro hreg; rw [regionClause, hreg]
  · intro ty hty; rw [typeClause, hty]
  · intro hty; rw [typeClause, hty]
  · intro hreg hty
    rw [enriched_text_eq item, regionClause, typeClause, hreg, hty]
    simp

/-- Witness for C4 with both attributes present and with both absent. -/
theorem enriched_text_spec_witness :
    ((Record.mk "a" "t" (some "Japan") (some "seafood")).region = some "Japan"
      ∧ regionClause (Record.mk "a" "t" (some "Japan") (some "seafood"))
          = " This food is popular in " ++ "Japan" ++ ".")
    ∧ ((Record.mk "b" "u" none none).region = none
      ∧ (Record.mk "b" "u" none none).type = none
      ∧ enriched_text (Record.mk "b" "u" none none) = "u") :=
  ⟨⟨rfl, (enriched_text_spec (Record.mk "a" "t" (some "Japan") (some "seafood"))).2.1
      "Japan" rfl⟩,
    ⟨rfl, rfl, (enriched_text_spec (Record.mk "b" "u" none none)).2.2.2.2.2 rfl rfl⟩⟩

/-- A successful service response passes through `get_embedding`. -/
lemma get_embedding_of_ok (svc : String → SvcResult Embedding) (text : String)
    (e : Embedding) (h : svc text = SvcResult.ok e) :
    get_embedding svc text = EmbedResult.ok e := by
  rw [get_embedding, h]

/-- C5: prompt assembly.  When the embedding call succeeds, the single
prompt passed to the generation client is the fixed template whose context
block is the retrieved documents' texts joined with a newline in the index's
ranked order, followed by the literal question, followed by the final
generation cue. -/
theorem prompt_assembly (embedSvc : String → SvcResult Embedding)
    (genSvc : String → SvcResult String) (dist : Embedding → Embedding → Int)
    (idx : Index) (question : String) (qEmb : Embedding)
    (h : embedSvc question = SvcResult.ok qEmb) :
    (process_question embedSvc genSvc dist idx question).2 =
      ["Use the following context to answer the question.\n\nContext:\n"
        ++ String.intercalate "\n" ((Index.query dist qEmb 3 idx).map IndexEntry.text)
        ++ "\n\nQuestion: " ++ question ++ "\nAnswer:"] := by
  rw [process_question, get_embedding_of_ok embedSvc question qEmb h]
  cases hg : genSvc ("Use the following context to answer the question.\n\nContext:\n"
      ++ String.intercalate "\n" ((Index.query dist qEmb 3 idx).map IndexEntry.text)
      ++ "\n\nQuestion: " ++ question ++ "\nAnswer:") <;>
    simp [hg]

/-- Witness for C5 on a one-entry index with stub clients. -/
theorem prompt_assembly_witness :
    ((fun (_ : String) => SvcResult.ok ([0] : Embedding)) "What is sushi?"
        = SvcResult.ok ([0] : Embedding))
    ∧ (process_question (fun _ => SvcResult.ok ([0] : Embedding))
        (fun _ => SvcResult.ok "an answer") (fun _ _ => 0)
        [IndexEntry.mk "a1" "Sushi is a Japanese dish." [0]] "What is sushi?").2 =
      ["Use the following context to answer the question.\n\nContext:\n"
        ++ String.intercalate "\n"
            ((Index.query (fun _ _ => 0) [0] 3
              [IndexEntry.mk "a1" "Sushi is a Japanese dish." [0]]).map IndexEntry.text)
        ++ "\n\nQuestion: " ++ "What is sushi?" ++ "\nAnswer:"] :=
  ⟨rfl, prompt_assembly (fun _ => SvcResult.ok ([0] : Embedding))
    (fun _ => SvcResult.ok "an answer") (fun _ _ => 0)
    [IndexEntry.mk "a1" "Sushi is a Japanese dish." [0]] "What is sushi?" [0] rfl⟩

/-- C6 (amended): if the embedding client fails with a timeout, the pipeline
terminates the whole process with exit code 1 — no timeout error is surfaced
to the caller — and the generation client is never called (the recorded
prompt list is empty). -/
theorem embed_timeout_exits (embedSvc : String → SvcResult Embedding)
    (genSvc : String → SvcResult String) (dist : Embedding → Embedding → Int)
    (idx : Index) (question : String)
    (h : embedSvc question = SvcResult.timeout) :
    process_question embedSvc genSvc dist idx question
      = (PipelineOutcome.exited 1, []) := by
  have hemb : get_embedding embedSvc question = EmbedResult.exited 1 := by
    rw [get_embedding, h]
  rw [process_question, hemb]

/-- Witness for the amended C6 with a stub timeout embedding client. -/
theorem embed_timeout_exits_witness :
    ((fun (_ : String) => (SvcResult.timeout : SvcResult Embedding)) "q"
        = SvcResult.timeout)
    ∧ process_question (fun _ => SvcResult.timeout) (fun _ => SvcResult.ok "ans")
        (fun _ _ => 0) [] "q" = (PipelineOutcome.exited 1, []) :=
  ⟨rfl, embed_timeout_exits (fun _ => SvcResult.timeout) (fun _ => SvcResult.ok "ans")
    (fun _ _ => 0) [] "q" rfl⟩

/-- C6 counterexample: with a stub embedding client that times out, the
pipeline outcome is process termination with exit code 1, not the
surfaced timeout error dialog the claim requires. -/
theorem embed_timeout_not_surfaced :
    process_question (fun _ => SvcResult.timeout) (fun _ => SvcResult.ok "ans")
        (fun _ _ => 0) [] "What is sushi?" = (PipelineOutcome.exited 1, []) ∧
    (process_question (fun _ => SvcResult.timeout) (fun _ => SvcResult.ok "ans")
        (fun _ _ => 0) [] "What is sushi?").1
      ≠ PipelineOutcome.errorDialog ErrKind.timeout := by
  constructor
  · rfl
  · decide

/-- C8: empty-question guard.  When the raw question is empty or
whitespace-only after stripping, `ask_question` shows the warning dialog
and returns without starting the pipeline: no embedding, query, or
generation call happens and no pipeline error is produced. -/
theorem empty_question_guard (embedSvc : String → SvcResult Embedding)
    (genSvc : String → SvcResult String) (dist : Embedding → Embedding → Int)
    (idx : Index) (rawQuestion : String) (h : stripString rawQuestion = "") :
    ask_question embedSvc genSvc dist idx rawQuestion = AskOutcome.warned := by
  rw [ask_question]
  simp [h]

/-- Witness for C8 on a whitespace-only entry. -/
theorem empty_question_guard_witness :
    stripString "  \t " = ""
    ∧ ask_question (fun _ => SvcResult.ok ([0] : Embedding))
        (fun _ => SvcResult.ok "ans") (fun _ _ => 0) [] "  \t " = AskOutcome.warned :=
  ⟨by decide, empty_question_guard (fun _ => SvcResult.ok ([0] : Embedding))
    (fun _ => SvcResult.ok "ans") (fun _ _ => 0) [] "  \t " (by decide)⟩

/-- C9: `get_embedding` never propagates a failure to its caller.  On a
connection failure, a timeout, or any other service error it terminates the
process with exit code 1; it returns a value exactly when the service
responds successfully, and then the response's embedding field is passed
through unmodified. -/
theorem get_embedding_spec (svc : String → SvcResult Embedding) (text : String) :
    (∀ e, svc text = SvcResult.ok e → get_embedding svc text = EmbedResult.ok e) ∧
    (svc text = SvcResult.connError → get_embedding svc text = EmbedResult.exited 1) ∧
    (svc text = SvcResult.timeout → get_embedding svc text = EmbedResult.exited 1) ∧
    (∀ m, svc text = SvcResult.otherError m
      → get_embedding svc text = EmbedResult.exited 1) ∧
    (∀ e, get_embedding svc text = EmbedResult.ok e → svc text = SvcResult.ok e) := by
  refine ⟨fun e h => by rw [get_embedding, h], fun h => by rw [get_embedding, h],
    fun h => by rw [get_embedding, h], fun m h => by rw [get_embedding, h],
    fun e h => ?_⟩
  rw [get_embedding] at h
  cases hs : svc text <;> rw [hs] at h <;> simp_all

/-- Witness for C9 on a successful stub service. -/
theorem get_embedding_spec_witness :
    ((fun (_ : String) => SvcResult.ok ([1, 2] : Embedding)) "t"
        = SvcResult.ok ([1, 2] : Embedding))
    ∧ get_embedding (fun _ => SvcResult.ok ([1, 2] : Embedding)) "t"
        = EmbedResult.ok [1, 2] :=
  ⟨rfl, (get_embedding_spec (fun _ => SvcResult.ok ([1, 2] : Embedding)) "t").1
    [1, 2] rfl⟩

/-- C7: query bounds.  A query against an index holding `n` entries returns
exactly `min n k` results, sorted ascending by distance to the query
embedding (most similar first), every result being a stored entry; the
function is total, so the `n < k` case returns all entries without error. -/
theorem query_bounds (dist : Embedding → Embedding → Int) (q : Embedding)
    (k : Nat) (idx : Index) :
    (Index.query dist q k idx).length = min idx.length k ∧
    List.Sorted (distLE dist q) (Index.query dist q k idx) ∧
    ∀ e ∈ Index.query dist q k idx, e ∈ idx := by
  refine ⟨?_, ?_, ?_⟩
  · rw [Index.query, List.length_take, List.length_insertionSort, Nat.min_comm]
  · haveI htot : IsTotal IndexEntry (distLE dist q) :=
      ⟨fun a b => Int.le_total (dist q a.embedding) (dist q b.embedding)⟩
    haveI htr : IsTrans IndexEntry (distLE dist q) :=
      ⟨fun a b c hab hbc => le_trans hab hbc⟩
    exact List.Pairwise.sublist (List.take_sublist _ _)
      (List.sorted_insertionSort (distLE dist q) idx)
  · intro e he
    exact (List.mem_insertionSort (distLE dist q)).1 (List.mem_of_mem_take he)

/-- If the pending inserts repeat an id or hit one already stored, the
ingestion fold stops with an error from the store. -/
lemma foldlM_insert_error (es : List IndexEntry) (idx : Index)
    (h : ¬ ((es.map IndexEntry.id).Nodup ∧ ∀ e ∈ es, e.id ∉ Index.ids idx)) :
    ∃ msg, es.foldlM Index.insert idx = Except.error msg := by
  induction es generalizing idx with
  | nil =>
    exact absurd ⟨List.nodup_nil, fun e he => absurd he (List.not_mem_nil e)⟩ h
  | cons e rest ih =>
    by_cases hmem : e.id ∈ Index.ids idx
    · refine ⟨"duplicate id: " ++ e.id, ?_⟩
      rw [List.foldlM_cons, Index.insert, if_pos hmem]
      rfl
    · rw [List.foldlM_cons, Index.insert, if_neg hmem]
      apply ih (idx ++ [e])
      intro ⟨hnd', hfr'⟩
      apply h
      have hids : Index.ids (idx ++ [e]) = Index.ids idx ++ [e.id] := by
        simp [Index.ids]
      constructor
      · rw [List.map_cons, List.nodup_cons]
        refine ⟨?_, hnd'⟩
        intro hcontra
        obtain ⟨e', he', heq⟩ := List.mem_map.1 hcontra
        apply hfr' e' he'
        rw [hids, heq]
        simp
      · intro e' he'
        rcases List.mem_cons.1 he' with rfl | hr
        · exact hmem
        · intro hcontra
          apply hfr' e' hr
          rw [hids]
          exact List.mem_append_left _ hcontra

/-- C10: ingestion deduplicates only against the index.  If the corpus
contains two records sharing an id that is absent from the index, both pass
the new-record filter, the insert call trace carries that id at least twice
in a single run, and the run hits the duplicate-insert error surface of the
store. -/
theorem intra_corpus_duplicates (embed : String → Embedding) (idx : Index)
    (corpus pre mid post : List Record) (r1 r2 : Record)
    (hc : corpus = pre ++ r1 :: (mid ++ r2 :: post))
    (hid : r1.id = r2.id) (habs : r1.id ∉ Index.ids idx) :
    r1 ∈ new_items corpus idx ∧ r2 ∈ new_items corpus idx ∧
    2 ≤ ((ingestCalls embed corpus idx).map IndexEntry.id).count r1.id ∧
    ∃ msg, runIngestion embed corpus idx = Except.error msg := by
  have habs2 : r2.id ∉ Index.ids idx := hid ▸ habs
  have hm1 : r1 ∈ corpus := by
    rw [hc]; exact List.mem_append_right _ (List.mem_cons_self _ _)
  have hm2 : r2 ∈ corpus := by
    rw [hc]
    exact List.mem_append_right _ (List.mem_cons_of_mem _
      (List.mem_append_right _ (List.mem_cons_self _ _)))
  have hn1 : r1 ∈ new_items corpus idx := (mem_new_items corpus idx r1).2 ⟨hm1, habs⟩
  have hn2 : r2 ∈ new_items corpus idx := (mem_new_items corpus idx r2).2 ⟨hm2, habs2⟩
  have hcount : 2 ≤ ((ingestCalls embed corpus idx).map IndexEntry.id).count r1.id := by
    rw [ingestCalls_map_id, hc, new_items, List.filter_append, List.filter_cons_of_pos
      (by simpa using habs), List.filter_append, List.filter_cons_of_pos
      (by simpa using habs2)]
    simp only [List.map_append, List.map_cons, List.count_append, List.count_cons_self,
      ← hid]
    omega
  refine ⟨hn1, hn2, hcount, ?_⟩
  apply foldlM_insert_error
  intro ⟨hnd, _⟩
  have := List.nodup_iff_count_le_one.1 hnd r1.id
  omega

/-- Witness for C10: two records with the same id against an empty index. -/
theorem intra_corpus_duplicates_witness :
    ([Record.mk "a" "t1" none none, Record.mk "a" "t2" none none]
        = [] ++ Record.mk "a" "t1" none none
            :: ([] ++ Record.mk "a" "t2" none none :: []))
    ∧ (Record.mk "a" "t1" none none).id = (Record.mk "a" "t2" none none).id
    ∧ (Record.mk "a" "t1" none none).id ∉ Index.ids []
    ∧ (Record.mk "a" "t1" none none
        ∈ new_items [Record.mk "a" "t1" none none, Record.mk "a" "t2" none none] []
      ∧ Record.mk "a" "t2" none none
        ∈ new_items [Record.mk "a" "t1" none none, Record.mk "a" "t2" none none] []
      ∧ 2 ≤ ((ingestCalls (fun _ => [0])
            [Record.mk "a" "t1" none none, Record.mk "a" "t2" none none] []).map
              IndexEntry.id).count (Record.mk "a" "t1" none none).id
      ∧ ∃ msg, runIngestion (fun _ => [0])
            [Record.mk "a" "t1" none none, Record.mk "a" "t2" none none] []
          = Except.error msg) :=
  ⟨rfl, rfl, by decide,
    intra_corpus_duplicates (fun _ => [0]) []
      [Record.mk "a" "t1" none none, Record.mk "a" "t2" none none] [] [] []
      (Record.mk "a" "t1" none none) (Record.mk "a" "t2" none none)
      rfl rfl (by decide)⟩
